import Mathlib

/-!
Verification of the related-jobs network tool (`related_jobs_network.py`).

The development shallowly embeds the core of the script:

* `RelatedJobsGraph.__init__`            → `initGraph`
* `RelatedJobsGraph.get_job_name`        → `get_job_name`
* `RelatedJobsGraph._get_job_name_with_retry` → `get_job_name_with_retry`
* `RelatedJobsGraph.get_related_jobs`    → `get_related_jobs` (with the
  per-batch loop split into `processEntry` / `processEntries`)
* `RelatedJobsGraph.get_statistics`      → `get_statistics`
* the zero-node guard of `RelatedJobsGraph.draw_graph` → `draw_graph_refuses`
* `main`'s construction-then-traversal sequence → `runTraversal`

The remote HTTP world (the 104.com.tw endpoints) is modelled by an `Oracle`
giving, for each job id and each attempt number, the outcome of the job-page
fetch and of the similar-jobs fetch.  The mutable object state
(`self.G`, `self.node_depths`, `self.visited_jobs`) is threaded explicitly as
a `TravState`; two extra fields `fetchLog` and `nameLog` record the remote
calls actually performed (in order), which makes "no remote call happens"
claims and retry counts observable.

Machine-level details deliberately abstracted: the HTML page text and the
`<title>` regex are collapsed into the oracle's `page` outcome (which carries
the optional matched title, already HTML-unescaped); `requests` exceptions
are modelled as the corresponding caught outcomes (`get_job_name` catches
`RequestException` and returns the job id, so it is total).  The embedded-URL
job-id regex `//www\.104\.com\.tw/job/(\w+)` is implemented concretely
(`extractJobId`), with `\w` read as ASCII letters, digits and underscore.
-/

/-- Outcome of one HTTP GET of a job detail page (`get_job_name`'s request):
either the request raised `requests.RequestException` (caught, line 164), or
the page was fetched and the `<title>(.*?)｜` search either failed (`none`)
or produced a (already unescaped) title text. -/
inductive NameFetch where
  | reqError
  | page (title : Option String)
deriving Repr, DecidableEq

/-- One entry of the similar-jobs JSON list.  `malformed` models an entry on
which the field accesses raise (caught by the per-entry `except`, line 238);
`fields` carries `job.get('link', {}).get('job', '')` and
`job.get('name', '')` (missing fields default to the empty string). -/
inductive Entry where
  | malformed
  | fields (linkJob : String) (name : String)
deriving Repr, DecidableEq

/-- Outcome of one HTTP GET of the similar-jobs endpoint: `fail` covers a
raised `RequestException`, a JSON decode error and a response missing the
`data`/`list` fields (all of which make `get_related_jobs` return, lines
199-201 and 242-245); `ok` carries the decoded `data['list']`. -/
inductive RelatedFetch where
  | fail
  | ok (entries : List Entry)
deriving Repr, DecidableEq

/-- The remote job source.  Both outcome functions take the job id and the
0-based attempt number (how many times this request was already made for
this id), so that transient failures and retry behaviour are expressible. -/
structure Oracle where
  nameOutcome : String → Nat → NameFetch
  relatedOutcome : String → Nat → RelatedFetch

/-- The mutable state of a `RelatedJobsGraph` object: the networkx graph `G`
(node list and edge list, both in insertion order, sets semantically), the
`node_depths` dict (insertion-ordered association list) and the
`visited_jobs` set.  `fetchLog` and `nameLog` additionally record, in order,
the job ids for which the similar-jobs endpoint resp. the job detail page
were requested. -/
structure TravState where
  nodes : List String
  edges : List (String × String)
  node_depths : List (String × Nat)
  visited_jobs : List String
  fetchLog : List String
  nameLog : List String
deriving Repr, DecidableEq

/-- The state of a freshly constructed object before seed resolution:
`self.G = nx.Graph()`, `self.node_depths = {}`, `self.visited_jobs = set()`. -/
def emptyState : TravState :=
  { nodes := [], edges := [], node_depths := [], visited_jobs := [],
    fetchLog := [], nameLog := [] }

/-- `G.add_node n`: networkx adds the node if absent, otherwise no-op. -/
def addNode (nodes : List String) (n : String) : List String :=
  if n ∈ nodes then nodes else nodes ++ [n]

/-- The edge-set part of `G.add_edge a b`: undirected, idempotent. -/
def addEdge (es : List (String × String)) (a b : String) : List (String × String) :=
  if (a, b) ∈ es ∨ (b, a) ∈ es then es else es ++ [(a, b)]

/-- `node_depths[k] = v`: Python dict assignment (updates in place, inserts
at the end when the key is new). -/
def setDepth : List (String × Nat) → String → Nat → List (String × Nat)
  | [], k, v => [(k, v)]
  | (k', v') :: rest, k, v =>
    if k' = k then (k, v) :: rest else (k', v') :: setDepth rest k v

/-- Number of occurrences of `j` in `l`; used to turn the logs into 0-based
attempt numbers for the oracle. -/
def countOcc (l : List String) (j : String) : Nat :=
  (l.filter fun x => x == j).length

/-- A character matched by `\w` (ASCII reading): letters, digits, underscore. -/
def isWordChar (c : Char) : Bool :=
  c.isAlphanum || c == '_'

/-- The literal part of the pattern `//www\.104\.com\.tw/job/(\w+)`. -/
def jobUrlPat : List Char := "//www.104.com.tw/job/".data

/-- If `pat` is a literal prefix of `cs`, return the remainder of `cs`. -/
def stripPat : List Char → List Char → Option (List Char)
  | [], cs => some cs
  | _ :: _, [] => none
  | p :: ps, c :: cs => if p = c then stripPat ps cs else none

/-- Leftmost-match search for `//www\.104\.com\.tw/job/(\w+)`: at each
position, if the literal pattern matches there and at least one word
character follows, the (greedy) group is the maximal word-character run;
otherwise the search advances one character. -/
def searchJobIdAux : List Char → Option (List Char)
  | [] => none
  | c :: rest =>
    match stripPat jobUrlPat (c :: rest) with
    | some tail =>
      let w := tail.takeWhile isWordChar
      if w = [] then searchJobIdAux rest else some w
    | none => searchJobIdAux rest

/-- `re.search(r"//www\.104\.com\.tw/job/(\w+)", s)` followed by `.group(1)`
(line 216): `none` when the pattern does not occur in `s`. -/
def extractJobId (s : String) : Option String :=
  (searchJobIdAux s.data).map fun l => String.mk l

/-- `get_job_name` (lines 141-166): fetch the job detail page; on a request
error return the job id (line 166); extract the title up to `｜`, returning
the job id when there is no match (line 162).  The function is total because
every `requests` error is caught.  `attempt` selects which of the successive
requests for this id this one is. -/
def get_job_name (o : Oracle) (job_id : String) (attempt : Nat) : String :=
  match o.nameOutcome job_id attempt with
  | .reqError => job_id
  | .page none => job_id
  | .page (some t) => t

/-- `_get_job_name_with_retry` (lines 120-139): up to `rem` attempts
(`config.max_retries` at the top call), returning the first truthy name;
a falsy (empty) name makes the loop continue; `none` on exhaustion. -/
def get_job_name_with_retry (o : Oracle) (j : String) : Nat → Nat → Option String
  | _, 0 => none
  | attempt, rem + 1 =>
    let name := get_job_name o j attempt
    if name = "" then get_job_name_with_retry o j (attempt + 1) rem else some name

/-- `__init__` (lines 102-110): resolve the seed name with retry; on success
register the seed node at depth 0 and mark the seed id visited; otherwise
raise `ValueError`.  The `error` branch carries the object state at the
moment of the raise (still completely empty). -/
def initGraph (o : Oracle) (max_retries : Nat) (seed : String) : Except TravState TravState :=
  match get_job_name_with_retry o seed 0 max_retries with
  | some name =>
    .ok { emptyState with
          nodes := [name], node_depths := [(name, 0)], visited_jobs := [seed] }
  | none => .error emptyState

/-- The body of the `for job in similar_jobs` loop for one entry (lines
207-240): a raising entry is skipped; an entry with a falsy link or name is
skipped (line 212); an entry whose embedded URL does not contain the job-id
pattern is skipped (line 217); an entry whose extracted id is already
visited is skipped (line 223); otherwise the node, the edge from the parent,
the depth record and the visited mark are added (lines 227-230) and the
traversal recurses one level deeper (line 236) via `recur`. -/
def processEntry (recur : String → Nat → String → TravState → TravState)
    (depth : Nat) (parent : String) (s : TravState) : Entry → TravState
  | .malformed => s
  | .fields linkJob name =>
    if linkJob = "" ∨ name = "" then s
    else
      match extractJobId linkJob with
      | none => s
      | some eid =>
        if eid ∈ s.visited_jobs then s
        else
          recur eid (depth + 1) name
            { s with
              nodes := addNode (addNode (addNode s.nodes name) parent) name,
              edges := addEdge s.edges parent name,
              node_depths := setDepth s.node_depths name depth,
              visited_jobs := s.visited_jobs ++ [eid] }

/-- The `for job in similar_jobs` loop (lines 207-240): entries processed
strictly in the order delivered by the remote source. -/
def processEntries (recur : String → Nat → String → TravState → TravState)
    (depth : Nat) (parent : String) : List Entry → TravState → TravState
  | [], s => s
  | e :: rest, s => processEntries recur depth parent rest (processEntry recur depth parent s e)

/-- `get_related_jobs` (lines 168-245).  `fuel` only bounds the recursion
depth for Lean's sake: every recursive call increases `depth` by 1 and every
call with `depth > max_depth` returns at once, so any `fuel` with
`max_depth + 2 ≤ fuel + depth` computes the exact Python semantics (see
`get_related_jobs_fuel_irrel`); the top-level call uses `max_depth + 1` at
`depth = 1`.  Order of the body, as in the source: the depth guard (line
178), the depth-1 parent resolution via a fresh `get_job_name` request
(line 183), the visited guard (line 186), the similar-jobs request with its
failure handling, then the entry loop. -/
def get_related_jobs (o : Oracle) (maxD : Nat) :
    Nat → String → Nat → String → TravState → TravState
  | 0, _, _, _, s => s
  | fuel + 1, job_id, depth, parent, s =>
    if maxD < depth then s
    else
      let parent1 := if depth = 1 then get_job_name o job_id (countOcc s.nameLog job_id) else parent
      let s1 := if depth = 1 then { s with nameLog := s.nameLog ++ [job_id] } else s
      if job_id ∈ s1.visited_jobs ∧ 1 < depth then s1
      else
        match o.relatedOutcome job_id (countOcc s1.fetchLog job_id) with
        | .fail => { s1 with fetchLog := s1.fetchLog ++ [job_id] }
        | .ok entries =>
          processEntries (get_related_jobs o maxD fuel) depth parent1 entries
            { s1 with fetchLog := s1.fetchLog ++ [job_id] }

/-- `main` (lines 443-463 core): construct the object, then
`graph.get_related_jobs(args.job_id, 1)`.  A construction failure aborts
with the (empty) state at the raise. -/
def runTraversal (o : Oracle) (max_retries maxD : Nat) (seed : String) :
    Except TravState TravState :=
  match initGraph o max_retries seed with
  | .ok s => .ok (get_related_jobs o maxD (maxD + 1) seed 1 "" s)
  | .error s => .error s

/-- `G.degree(n)` on the edge list: each incident edge counts once per
endpoint (so a self-loop counts twice, as in networkx). -/
def degree (edges : List (String × String)) (n : String) : Nat :=
  (edges.map fun e => (if e.1 = n then 1 else 0) + (if e.2 = n then 1 else 0)).sum

/-- The record returned by `get_statistics` (lines 338-352); the float
average degree is modelled exactly as a rational. -/
structure Stats where
  node_count : Nat
  edge_count : Nat
  max_depth : Nat
  actual_depth : Nat
  avg_degree : Rat
  visited_count : Nat
deriving Repr, DecidableEq

/-- `get_statistics` (lines 338-352), including the two guards: actual depth
is `max(node_depths.values())` only when the dict is nonempty, else 0; the
average degree divides only when the graph has nodes, else 0. -/
def get_statistics (maxD : Nat) (s : TravState) : Stats where
  node_count := s.nodes.length
  edge_count := s.edges.length
  max_depth := maxD
  actual_depth :=
    if s.node_depths.isEmpty then 0
    else (s.node_depths.map Prod.snd).foldl Nat.max 0
  avg_degree :=
    if 0 < s.nodes.length
    then ((s.nodes.map (degree s.edges)).sum : Rat) / (s.nodes.length : Rat)
    else 0
  visited_count := s.visited_jobs.length

/-- The refusal condition of `draw_graph` (line 254):
`len(self.G.nodes()) == 0`. -/
def draw_graph_refuses (s : TravState) : Bool :=
  s.nodes.length == 0

/-! ## Basic lemmas about the store operations -/

theorem addNode_mem_of_mem {l : List String} {a : String} (n : String) (h : a ∈ l) :
    a ∈ addNode l n := by
  unfold addNode; split
  · exact h
  · exact List.mem_append_left _ h

theorem addNode_mem_self (l : List String) (n : String) : n ∈ addNode l n := by
  unfold addNode; split
  · assumption
  · exact List.mem_append_right _ (List.mem_singleton.mpr rfl)

theorem addEdge_mem {es : List (String × String)} {a b : String} {e : String × String}
    (h : e ∈ addEdge es a b) : e ∈ es ∨ e = (a, b) := by
  unfold addEdge at h; split at h
  · exact Or.inl h
  · rcases List.mem_append.mp h with h | h
    · exact Or.inl h
    · exact Or.inr (List.mem_singleton.mp h)

theorem setDepth_mem {k : String} {v : Nat} :
    ∀ {l : List (String × Nat)} {kv : String × Nat},
      kv ∈ setDepth l k v → kv = (k, v) ∨ kv ∈ l
  | [], kv, h => by
    simp only [setDepth, List.mem_singleton] at h
    exact Or.inl h
  | (k', v') :: rest, kv, h => by
    simp only [setDepth] at h
    split at h
    · rcases List.mem_cons.mp h with h | h
      · exact Or.inl h
      · exact Or.inr (List.mem_cons_of_mem _ h)
    · rcases List.mem_cons.mp h with h | h
      · exact Or.inr (h ▸ List.mem_cons_self _ _)
      · rcases setDepth_mem h with h | h
        · exact Or.inl h
        · exact Or.inr (List.mem_cons_of_mem _ h)

theorem setDepth_length (k : String) (v : Nat) :
    ∀ l : List (String × Nat), l.length ≤ (setDepth l k v).length
  | [] => by simp [setDepth]
  | (k', v') :: rest => by
    simp only [setDepth]
    split
    · simp
    · simpa using setDepth_length k v rest

/-! ## Invariants and monotonicity -/

/-- Every depth recorded in `node_depths` is at most `maxD`. -/
def DepthsBounded (maxD : Nat) (s : TravState) : Prop :=
  ∀ kv ∈ s.node_depths, kv.2 ≤ maxD

/-- Every key of `node_depths` is a node of the graph, and every edge of the
graph connects two nodes present in the graph. -/
def GraphInv (s : TravState) : Prop :=
  (∀ kv ∈ s.node_depths, kv.1 ∈ s.nodes) ∧ ∀ e ∈ s.edges, e.1 ∈ s.nodes ∧ e.2 ∈ s.nodes

instance (maxD : Nat) (s : TravState) : Decidable (DepthsBounded maxD s) := by
  unfold DepthsBounded; infer_instance

instance (s : TravState) : Decidable (GraphInv s) := by
  unfold GraphInv; infer_instance

/-- Monotone evolution of the state: nodes are never removed, the depth dict
never shrinks, and the similar-jobs request log only gets extended. -/
def Grows (s t : TravState) : Prop :=
  (∀ a ∈ s.nodes, a ∈ t.nodes)
  ∧ s.node_depths.length ≤ t.node_depths.length
  ∧ ∃ u, s.fetchLog ++ u = t.fetchLog

theorem Grows.refl (s : TravState) : Grows s s :=
  ⟨fun _ h => h, Nat.le_refl _, [], List.append_nil _⟩

theorem Grows.trans {a b c : TravState} (h₁ : Grows a b) (h₂ : Grows b c) : Grows a c := by
  obtain ⟨n₁, d₁, u₁, f₁⟩ := h₁
  obtain ⟨n₂, d₂, u₂, f₂⟩ := h₂
  exact ⟨fun x hx => n₂ x (n₁ x hx), Nat.le_trans d₁ d₂,
    u₁ ++ u₂, by rw [← List.append_assoc, f₁, f₂]⟩

theorem processEntry_depths {maxD : Nat} {recur : String → Nat → String → TravState → TravState}
    (hrec : ∀ j d p s, DepthsBounded maxD s → DepthsBounded maxD (recur j d p s))
    {d : Nat} (hd : d ≤ maxD) (p : String) (s : TravState) (e : Entry)
    (hs : DepthsBounded maxD s) : DepthsBounded maxD (processEntry recur d p s e) := by
  cases e with
  | malformed => exact hs
  | fields linkJob name =>
    simp only [processEntry]
    split
    · exact hs
    · split
      · exact hs
      · split
        · exact hs
        · apply hrec
          intro kv hkv
          rcases setDepth_mem hkv with h | h
          · rw [h]; exact hd
          · exact hs kv h

theorem processEntries_depths {maxD : Nat} {recur : String → Nat → String → TravState → TravState}
    (hrec : ∀ j d p s, DepthsBounded maxD s → DepthsBounded maxD (recur j d p s))
    {d : Nat} (hd : d ≤ maxD) (p : String) :
    ∀ (es : List Entry) (s : TravState),
      DepthsBounded maxD s → DepthsBounded maxD (processEntries recur d p es s)
  | [], _, hs => hs
  | e :: rest, s, hs =>
    processEntries_depths hrec hd p rest _ (processEntry_depths hrec hd p s e hs)

theorem get_related_jobs_depths (o : Oracle) (maxD : Nat) :
    ∀ (f : Nat) (j : String) (d : Nat) (p : String) (s : TravState),
      DepthsBounded maxD s → DepthsBounded maxD (get_related_jobs o maxD f j d p s) := by
  intro f
  induction f with
  | zero => intro j d p s hs; exact hs
  | succ f ih =>
    intro j d p s hs
    simp only [get_related_jobs]
    split
    · exact hs
    · split <;>
      · split
        · exact hs
        · split
          · exact hs
          · exact processEntries_depths ih (by omega) _ _ _ hs

theorem processEntry_inv {recur : String → Nat → String → TravState → TravState}
    (hrec : ∀ j d p s, GraphInv s → GraphInv (recur j d p s))
    (d : Nat) (p : String) (s : TravState) (e : Entry)
    (hs : GraphInv s) : GraphInv (processEntry recur d p s e) := by
  cases e with
  | malformed => exact hs
  | fields linkJob name =>
    simp only [processEntry]
    split
    · exact hs
    · split
      · exact hs
      · split
        · exact hs
        · apply hrec
          obtain ⟨hdep, hedge⟩ := hs
          constructor
          · intro kv hkv
            rcases setDepth_mem hkv with h | h
            · rw [h]
              exact addNode_mem_self _ _
            · exact addNode_mem_of_mem _ (addNode_mem_of_mem _ (addNode_mem_of_mem _ (hdep kv h)))
          · intro e he
            rcases addEdge_mem he with h | h
            · obtain ⟨h₁, h₂⟩ := hedge e h
              exact ⟨addNode_mem_of_mem _ (addNode_mem_of_mem _ (addNode_mem_of_mem _ h₁)),
                     addNode_mem_of_mem _ (addNode_mem_of_mem _ (addNode_mem_of_mem _ h₂))⟩
            · rw [h]
              exact ⟨addNode_mem_of_mem _ (addNode_mem_self _ _),
                     addNode_mem_self _ _⟩

theorem processEntries_inv {recur : String → Nat → String → TravState → TravState}
    (hrec : ∀ j d p s, GraphInv s → GraphInv (recur j d p s)) (d : Nat) (p : String) :
    ∀ (es : List Entry) (s : TravState),
      GraphInv s → GraphInv (processEntries recur d p es s)
  | [], _, hs => hs
  | e :: rest, s, hs =>
    processEntries_inv hrec d p rest _ (processEntry_inv hrec d p s e hs)

theorem get_related_jobs_inv (o : Oracle) (maxD : Nat) :
    ∀ (f : Nat) (j : String) (d : Nat) (p : String) (s : TravState),
      GraphInv s → GraphInv (get_related_jobs o maxD f j d p s) := by
  intro f
  induction f with
  | zero => intro j d p s hs; exact hs
  | succ f ih =>
    intro j d p s hs
    simp only [get_related_jobs]
    split
    · exact hs
    · split <;>
      · split
        · exact hs
        · split
          · exact hs
          · exact processEntries_inv ih _ _ _ _ hs

theorem processEntry_grows {recur : String → Nat → String → TravState → TravState}
    (hrec : ∀ j d p s, Grows s (recur j d p s))
    (d : Nat) (p : String) (s : TravState) (e : Entry) :
    Grows s (processEntry recur d p s e) := by
  cases e with
  | malformed => exact Grows.refl s
  | fields linkJob name =>
    simp only [processEntry]
    split
    · exact Grows.refl s
    · split
      · exact Grows.refl s
      · split
        · exact Grows.refl s
        · refine Grows.trans ?_ (hrec ..)
          exact ⟨fun a ha =>
              addNode_mem_of_mem _ (addNode_mem_of_mem _ (addNode_mem_of_mem _ ha)),
            setDepth_length _ _ _, [], List.append_nil _⟩

theorem processEntries_grows {recur : String → Nat → String → TravState → TravState}
    (hrec : ∀ j d p s, Grows s (recur j d p s)) (d : Nat) (p : String) :
    ∀ (es : List Entry) (s : TravState), Grows s (processEntries recur d p es s)
  | [], s => Grows.refl s
  | e :: rest, s =>
    Grows.trans (processEntry_grows hrec d p s e) (processEntries_grows hrec d p rest _)

theorem get_related_jobs_grows (o : Oracle) (maxD : Nat) :
    ∀ (f : Nat) (j : String) (d : Nat) (p : String) (s : TravState),
      Grows s (get_related_jobs o maxD f j d p s) := by
  intro f
  induction f with
  | zero => intro j d p s; exact Grows.refl s
  | succ f ih =>
    intro j d p s
    simp only [get_related_jobs]
    split
    · exact Grows.refl s
    · have hstep : ∀ t : TravState, Grows s t → Grows s { t with fetchLog := t.fetchLog ++ [j] } :=
        fun t ⟨hn, hd, u, hu⟩ => ⟨hn, hd, u ++ [j], by rw [← List.append_assoc, hu]⟩
      split <;>
      · split
        · exact ⟨fun _ ha => ha, Nat.le_refl _, [], List.append_nil _⟩
        · split
          · exact hstep _ ⟨fun _ ha => ha, Nat.le_refl _, [], List.append_nil _⟩
          · refine Grows.trans ?_ (processEntries_grows ih _ _ _ _)
            exact hstep _ ⟨fun _ ha => ha, Nat.le_refl _, [], List.append_nil _⟩

/-! ## Structural lemmas about the traversal -/

theorem get_related_jobs_gt (o : Oracle) (maxD f : Nat) (j : String) (d : Nat)
    (p : String) (s : TravState) (h : maxD < d) :
    get_related_jobs o maxD f j d p s = s := by
  cases f with
  | zero => rfl
  | succ f => simp only [get_related_jobs, if_pos h]

theorem processEntry_congr {recur recur' : String → Nat → String → TravState → TravState}
    {d : Nat} (h : ∀ j p s, recur j (d + 1) p s = recur' j (d + 1) p s)
    (p : String) (s : TravState) (e : Entry) :
    processEntry recur d p s e = processEntry recur' d p s e := by
  cases e with
  | malformed => rfl
  | fields linkJob name =>
    simp only [processEntry]
    split
    · rfl
    · split
      · rfl
      · split
        · rfl
        · exact h ..

theorem processEntries_congr {recur recur' : String → Nat → String → TravState → TravState}
    {d : Nat} (h : ∀ j p s, recur j (d + 1) p s = recur' j (d + 1) p s) (p : String) :
    ∀ (es : List Entry) (s : TravState),
      processEntries recur d p es s = processEntries recur' d p es s
  | [], _ => rfl
  | e :: rest, s => by
    simp only [processEntries, processEntry_congr h p s e]
    exact processEntries_congr h p rest _

/-- The fuel parameter is irrelevant once it exceeds the distance left to
the depth cutoff: the embedding computes the same state for any two
sufficient fuels, so `runTraversal`'s choice `maxD + 1` at depth 1 is
canonical and the model does not depend on the artificial bound. -/
theorem get_related_jobs_fuel_irrel (o : Oracle) (maxD : Nat) :
    ∀ (f f' d : Nat) (j p : String) (s : TravState),
      maxD + 2 ≤ f + d → maxD + 2 ≤ f' + d →
      get_related_jobs o maxD f j d p s = get_related_jobs o maxD f' j d p s := by
  intro f
  induction f using Nat.strong_induction_on with
  | _ f ih =>
    intro f' d j p s hf hf'
    by_cases hd : maxD < d
    · rw [get_related_jobs_gt o maxD f j d p s hd, get_related_jobs_gt o maxD f' j d p s hd]
    · obtain ⟨f₁, rfl⟩ : ∃ g, f = g + 1 := ⟨f - 1, by omega⟩
      obtain ⟨f₂, rfl⟩ : ∃ g, f' = g + 1 := ⟨f' - 1, by omega⟩
      simp only [get_related_jobs, if_neg hd]
      split <;>
      · split
        · rfl
        · split
          · rfl
          · exact processEntries_congr
              (fun j' p' s' => ih f₁ (by omega) f₂ (d + 1) j' p' s' (by omega) (by omega)) _ _ _

theorem initGraph_ok {o : Oracle} {r : Nat} {seed : String} {s₀ : TravState}
    (h : initGraph o r seed = .ok s₀) :
    ∃ name, s₀ = { emptyState with
                   nodes := [name], node_depths := [(name, 0)], visited_jobs := [seed] } := by
  unfold initGraph at h
  split at h
  · rename_i name heq
    injection h with h
    exact ⟨name, h.symm⟩
  · exact Except.noConfusion h

theorem runTraversal_ok {o : Oracle} {r maxD : Nat} {seed : String} {s : TravState}
    (h : runTraversal o r maxD seed = .ok s) :
    ∃ s₀, initGraph o r seed = .ok s₀
      ∧ s = get_related_jobs o maxD (maxD + 1) seed 1 "" s₀ := by
  unfold runTraversal at h
  split at h
  · rename_i s₀ heq
    injection h with h
    exact ⟨s₀, heq, h.symm⟩
  · exact Except.noConfusion h

theorem countOcc_append (a b : List String) (j : String) :
    countOcc (a ++ b) j = countOcc a j + countOcc b j := by
  simp [countOcc, List.filter_append]

/-! ## Concrete remote scenarios used by the claims -/

/-- Remote scenario of the spec §8 walkthrough: the seed `seed_id` resolves
to `A`; `A`'s related jobs are `B` (id `b1`) and `C` (id `c1`); `b1`'s
related jobs are `A` (id `seed_id`, the mutual back-reference) and `D`
(id `d1`). -/
def oC1 : Oracle where
  nameOutcome := fun _ _ => .page (some "A")
  relatedOutcome := fun j _ =>
    if j = "seed_id" then
      .ok [.fields "//www.104.com.tw/job/b1" "B", .fields "//www.104.com.tw/job/c1" "C"]
    else if j = "b1" then
      .ok [.fields "//www.104.com.tw/job/seed_id" "A", .fields "//www.104.com.tw/job/d1" "D"]
    else .ok []

/-- The object state right after a successful construction on the scenarios
whose seed resolves to `A` with seed id `seed_id`. -/
def s0C1 : TravState :=
  { emptyState with nodes := ["A"], node_depths := [("A", 0)], visited_jobs := ["seed_id"] }

/-- The state the code actually produces on the §8 scenario with
`max_depth = 2`. -/
def c1Final : TravState :=
  { nodes := ["A", "B", "C"], edges := [("A", "B"), ("A", "C")],
    node_depths := [("A", 0), ("B", 1), ("C", 1)],
    visited_jobs := ["seed_id", "b1", "c1"],
    fetchLog := ["seed_id"], nameLog := ["seed_id"] }

/-- Scenario for the retry claims: the seed `s1` resolves to `A`; the
similar-jobs request for `s1` fails on the first attempt and would succeed
(returning child `B`, id `b1`) on every later attempt. -/
def oFailRel : Oracle where
  nameOutcome := fun _ _ => .page (some "A")
  relatedOutcome := fun j a =>
    if j = "s1" ∧ a = 0 then .fail
    else if j = "s1" then .ok [.fields "//www.104.com.tw/job/b1" "B"]
    else .ok []

/-- The object state right after a successful construction with seed id
`s1` resolving to `A`. -/
def s0C4 : TravState :=
  { emptyState with nodes := ["A"], node_depths := [("A", 0)], visited_jobs := ["s1"] }

/-- The state the code produces on the `oFailRel` scenario. -/
def c4Final : TravState :=
  { nodes := ["A"], edges := [], node_depths := [("A", 0)],
    visited_jobs := ["s1"], fetchLog := ["s1"], nameLog := ["s1"] }

/-- Scenario in which the seed name can never be resolved: every page fetch
matches an empty title, which is falsy, so the retry loop exhausts. -/
def oNoName : Oracle where
  nameOutcome := fun _ _ => .page (some "")
  relatedOutcome := fun _ _ => .ok []

/-- The graph of statement C9: nodes A, B, C; edges A-B and A-C. -/
def statsDemo : TravState :=
  { nodes := ["A", "B", "C"], edges := [("A", "B"), ("A", "C")],
    node_depths := [("A", 0), ("B", 1), ("C", 1)],
    visited_jobs := ["sA", "sB", "sC"], fetchLog := [], nameLog := [] }

/-! ## Claims -/

/-- C1: the claimed run (max_depth = 2, seed `seed_id` named `A`, related
lists as in the spec §8 walkthrough) does NOT produce the claimed graph
{A, B, C, D} with edge B-D and depth D ↦ 2.  Evaluating the embedded code:
each child id is added to the visited set (line 230) immediately before the
recursive call (line 236), so the recursive call at depth 2 hits the
visited guard (line 186) and returns before any request; `b1`'s related
jobs are never fetched, `D` never appears, and no node is recorded beyond
depth 1.  The `max_depth` parameter is thereby defeated for every value
above 1, contradicting the intended semantics the spec (and the class
docstring, depth-colouring and statistics code) describe. -/
theorem c1_code_divergence :
    runTraversal oC1 3 2 "seed_id" = .ok c1Final
    ∧ "D" ∉ c1Final.nodes
    ∧ ("B", "D") ∉ c1Final.edges ∧ ("D", "B") ∉ c1Final.edges
    ∧ c1Final.fetchLog = ["seed_id"]
    ∧ ∀ kv ∈ c1Final.node_depths, kv.2 ≤ 1 :=
  ⟨rfl, by decide, by decide, by decide, rfl, by decide⟩

/-- C2: for every max_depth, every retry budget, every seed and every
remote behaviour, a run that completes leaves no `node_depths` entry above
`max_depth`: the guard at line 178 returns before anything is recorded for
`depth > max_depth`, and the loop records exactly the current call depth
(line 229), which that guard bounds. -/
theorem run_depths_bounded (o : Oracle) (r maxD : Nat) (seed : String) (s : TravState)
    (h : runTraversal o r maxD seed = .ok s) : DepthsBounded maxD s := by
  obtain ⟨s₀, h₀, rfl⟩ := runTraversal_ok h
  obtain ⟨name, rfl⟩ := initGraph_ok h₀
  apply get_related_jobs_depths
  intro kv hkv
  have hkv' : kv ∈ [(name, 0)] := hkv
  rw [List.mem_singleton.mp hkv']
  exact Nat.zero_le _

theorem run_depths_bounded_witness : DepthsBounded 2 c1Final :=
  run_depths_bounded oC1 3 2 "seed_id" c1Final rfl

/-- C3: a traversal call whose job id is already visited returns the state
untouched — no page request, no similar-jobs request, no graph mutation —
whenever `depth > 1` (first conjunct, an exact state equality); at
`depth = 1` (the seed's own call, whose id was pre-registered as visited at
construction) the guard is skipped and, provided `max_depth ≥ 1` (else the
depth guard already returned), the call does proceed to request the node's
related jobs: the number of similar-jobs requests for it strictly grows
(second conjunct). -/
theorem visited_guard_behaviour (o : Oracle) (maxD : Nat) :
    (∀ (f : Nat) (j : String) (d : Nat) (p : String) (s : TravState),
        j ∈ s.visited_jobs → 1 < d → get_related_jobs o maxD f j d p s = s)
    ∧ ∀ (f : Nat) (j p : String) (s : TravState), j ∈ s.visited_jobs → 1 ≤ maxD →
        countOcc s.fetchLog j < countOcc ((get_related_jobs o maxD (f + 1) j 1 p s).fetchLog) j := by
  constructor
  · intro f j d p s hv hd
    cases f with
    | zero => rfl
    | succ f =>
      have hne : ¬d = 1 := by omega
      simp only [get_related_jobs]
      split
      · rfl
      · simp [hne, hv, hd]
  · intro f j p s hv hmax
    have h1 : ¬maxD < 1 := by omega
    simp only [get_related_jobs]
    simp [h1]
    cases hout : o.relatedOutcome j (countOcc s.fetchLog j) with
    | fail =>
      simp [countOcc_append, countOcc]
    | ok entries =>
      obtain ⟨-, -, u, hu⟩ :=
        processEntries_grows (get_related_jobs_grows o maxD f) 1
          (get_job_name o j (countOcc s.nameLog j)) entries
          { s with fetchLog := s.fetchLog ++ [j], nameLog := s.nameLog ++ [j] }
      rw [← hu]
      simp [countOcc_append, countOcc]

theorem visited_guard_behaviour_witness :
    get_related_jobs oC1 2 2 "b1" 2 "B" c1Final = c1Final
    ∧ countOcc s0C1.fetchLog "seed_id" <
        countOcc ((get_related_jobs oC1 2 3 "seed_id" 1 "" s0C1).fetchLog) "seed_id" :=
  ⟨(visited_guard_behaviour oC1 2).1 2 "b1" 2 "B" c1Final (by decide) (by decide),
   (visited_guard_behaviour oC1 2).2 2 "seed_id" "" s0C1 (by decide) (by decide)⟩

/-- C4 (counterexample): with `max_retries = 3` and a similar-jobs endpoint
that fails for the seed on the first request but would succeed — returning
child `B` — on every later attempt, the run performs exactly ONE
similar-jobs request for the seed and gives up: `B` never enters the graph.
This refutes "retried up to max_retries times with increasing backoff":
the retry wrapper `_get_job_name_with_retry` wraps only the job-NAME
request; the similar-jobs request of `get_related_jobs` is issued once
(lines 194-196) and any failure is recovered immediately (lines 242-245)
with no second attempt. -/
theorem related_fetch_not_retried :
    runTraversal oFailRel 3 2 "s1" = .ok c4Final
    ∧ countOcc c4Final.fetchLog "s1" = 1
    ∧ oFailRel.relatedOutcome "s1" 1 = .ok [.fields "//www.104.com.tw/job/b1" "B"]
    ∧ "B" ∉ c4Final.nodes :=
  ⟨rfl, rfl, rfl, by decide⟩

/-- C4 (amended): a failing similar-jobs request for a node is NOT retried —
it is attempted exactly once — and the failure is recovered locally: a call
that passes the depth and visited guards appends exactly one entry for its
id to the request log and, when that single request fails, returns the
state with no other change (at depth 1 the parent-name page request is also
logged): the node stays a leaf, and since the call returns a value rather
than raising, the caller's entry loop and every enclosing call continue
unaffected. -/
theorem related_fetch_fail_single_attempt (o : Oracle) (maxD f : Nat)
    (j p : String) (d : Nat) (s : TravState)
    (hd : d ≤ maxD) (hv : ¬(j ∈ s.visited_jobs ∧ 1 < d))
    (hfail : o.relatedOutcome j (countOcc s.fetchLog j) = .fail) :
    get_related_jobs o maxD (f + 1) j d p s =
      { s with nameLog := s.nameLog ++ (if d = 1 then [j] else []),
               fetchLog := s.fetchLog ++ [j] } := by
  simp only [get_related_jobs, if_neg (show ¬maxD < d by omega)]
  by_cases h1 : d = 1
  · subst h1
    simp [hfail]
  · simp [h1, hv, hfail]

theorem related_fetch_fail_single_attempt_witness :
    get_related_jobs oFailRel 2 3 "s1" 1 "" s0C4 =
      { s0C4 with nameLog := s0C4.nameLog ++ (if 1 = 1 then ["s1"] else []),
                  fetchLog := s0C4.fetchLog ++ ["s1"] } :=
  related_fetch_fail_single_attempt oFailRel 2 2 "s1" "" 1 s0C4
    (by decide) (by decide) rfl

/-- C5: every key of the depth map is a node of the graph, and every edge
joins two nodes of the graph — this holds at construction (first conjunct)
and is preserved by every traversal call from every state (second
conjunct), hence at every intermediate point of the run, each step of which
is such a call. -/
theorem graph_inv_holds (o : Oracle) (maxD : Nat) :
    (∀ (r : Nat) (seed : String) (s₀ : TravState), initGraph o r seed = .ok s₀ → GraphInv s₀)
    ∧ ∀ (f : Nat) (j : String) (d : Nat) (p : String) (s : TravState),
        GraphInv s → GraphInv (get_related_jobs o maxD f j d p s) := by
  constructor
  · intro r seed s₀ h
    obtain ⟨name, rfl⟩ := initGraph_ok h
    constructor
    · intro kv hkv
      have hkv' : kv ∈ [(name, 0)] := hkv
      rw [List.mem_singleton.mp hkv']
      exact List.mem_singleton.mpr rfl
    · intro e he
      have he' : e ∈ ([] : List (String × String)) := he
      exact absurd he' (List.not_mem_nil e)
  · exact get_related_jobs_inv o maxD

theorem graph_inv_holds_witness : GraphInv s0C1 ∧ GraphInv c1Final :=
  ⟨(graph_inv_holds oC1 2).1 3 "seed_id" s0C1 rfl,
   (graph_inv_holds oC1 2).2 3 "seed_id" 1 "" s0C1 (by decide)⟩

/-- C6: batch entries are processed exactly in the order the remote source
returned them (second conjunct, one loop step), and an entry whose
extracted job id is already in the visited set — the dedup key of line
223 — contributes nothing at all: no node, no second edge, no depth update,
no recursion (first conjunct), so the parent that first discovered the id
keeps its edge and recorded depth. -/
theorem dedup_first_discoverer (recur : String → Nat → String → TravState → TravState)
    (d : Nat) (p : String) (s : TravState) (l n eid : String) (rest : List Entry)
    (e : Entry) (es : List Entry) (t : TravState)
    (hl : ¬l = "") (hn : ¬n = "") (he : extractJobId l = some eid)
    (hv : eid ∈ s.visited_jobs) :
    processEntries recur d p (Entry.fields l n :: rest) s = processEntries recur d p rest s
    ∧ processEntries recur d p (e :: es) t =
        processEntries recur d p es (processEntry recur d p t e) := by
  refine ⟨?_, rfl⟩
  have hskip : processEntry recur d p s (Entry.fields l n) = s := by
    simp [processEntry, hl, hn, he, hv]
  simp only [processEntries, hskip]

theorem dedup_first_discoverer_witness :
    processEntries (fun _ _ _ t => t) 1 "A"
        [Entry.fields "//www.104.com.tw/job/b1" "X"] c1Final
      = processEntries (fun _ _ _ t => t) 1 "A" [] c1Final
    ∧ processEntries (fun _ _ _ t => t) 1 "A" [Entry.malformed] c1Final
      = processEntries (fun _ _ _ t => t) 1 "A" []
          (processEntry (fun _ _ _ t => t) 1 "A" c1Final Entry.malformed) :=
  dedup_first_discoverer (fun _ _ _ t => t) 1 "A" c1Final
    "//www.104.com.tw/job/b1" "X" "b1" [] Entry.malformed [] c1Final
    (by decide) (by decide) (by decide) (by decide)

/-- C7: when the retry wrapper yields no name for the seed, the constructor
raises `ValueError` (line 110) before traversal can start: the state at the
abort has no graph node, no depth entry, no visited id, and the run never
issues a similar-jobs request (the run result is the construction error,
with an empty request log). -/
theorem seed_failure_aborts (o : Oracle) (r maxD : Nat) (seed : String)
    (h : get_job_name_with_retry o seed 0 r = none) :
    initGraph o r seed = Except.error emptyState
    ∧ runTraversal o r maxD seed = Except.error emptyState
    ∧ emptyState.nodes = [] ∧ emptyState.node_depths = []
    ∧ emptyState.visited_jobs = [] ∧ emptyState.fetchLog = [] := by
  have hi : initGraph o r seed = Except.error emptyState := by
    unfold initGraph
    rw [h]
  refine ⟨hi, ?_, rfl, rfl, rfl, rfl⟩
  unfold runTraversal
  rw [hi]

theorem seed_failure_aborts_witness :
    initGraph oNoName 3 "s1" = Except.error emptyState
    ∧ runTraversal oNoName 3 2 "s1" = Except.error emptyState :=
  ⟨(seed_failure_aborts oNoName 3 2 "s1" rfl).1,
   (seed_failure_aborts oNoName 3 2 "s1" rfl).2.1⟩

/-- C8: a related-jobs entry that raises, or misses its name or its link,
or whose embedded URL does not contain the job-id pattern, is skipped
without raising and without any effect — no node, no edge, no depth record,
no visited mark — and the remaining entries of the batch are processed from
the unchanged state. -/
theorem bad_entry_skipped (recur : String → Nat → String → TravState → TravState)
    (d : Nat) (p : String) (s : TravState) (e : Entry) (rest : List Entry)
    (h : e = Entry.malformed ∨
         ∃ l n, e = Entry.fields l n ∧ (l = "" ∨ n = "" ∨ extractJobId l = none)) :
    processEntries recur d p (e :: rest) s = processEntries recur d p rest s := by
  have hskip : processEntry recur d p s e = s := by
    rcases h with rfl | ⟨l, n, rfl, h⟩
    · rfl
    · simp only [processEntry]
      rcases h with h | h | h
      · simp [h]
      · simp [h]
      · split
        · rfl
        · simp [h]
  simp only [processEntries, hskip]

theorem bad_entry_skipped_witness :
    processEntries (fun _ _ _ t => t) 1 "A"
        [Entry.fields "https://example.com/page" "X"] c1Final
      = processEntries (fun _ _ _ t => t) 1 "A" [] c1Final :=
  bad_entry_skipped (fun _ _ _ t => t) 1 "A" c1Final
    (Entry.fields "https://example.com/page" "X") []
    (Or.inr ⟨"https://example.com/page", "X", rfl, Or.inr (Or.inr (by decide))⟩)

/-- C9: on the graph with nodes A, B, C and edges A-B and A-C,
`get_statistics` reports 3 nodes, 2 edges, and average degree exactly 4/3
(degree sum 2 + 1 + 1 = 4 divided by node count 3). -/
theorem statistics_demo :
    (get_statistics 2 statsDemo).node_count = 3
    ∧ (get_statistics 2 statsDemo).edge_count = 2
    ∧ (get_statistics 2 statsDemo).avg_degree = 4 / 3 := by
  refine ⟨rfl, rfl, ?_⟩
  simp only [get_statistics, statsDemo]
  have hA : degree [("A", "B"), ("A", "C")] "A" = 2 := by decide
  have hB : degree [("A", "B"), ("A", "C")] "B" = 1 := by decide
  have hC : degree [("A", "B"), ("A", "C")] "C" = 1 := by decide
  norm_num [hA, hB, hC]

/-- C10: a run whose construction succeeds has the resolved seed name as a
node and its depth-0 record in the depth map, and the traversal only ever
adds: the final state (and likewise every intermediate one, by the same
monotonicity) has a node and a depth entry, so the zero-node refusal branch
of `draw_graph` (line 254) is not taken, the empty-dict guard of the actual
depth (line 349) is not taken, and the positive-node-count branch of the
average degree (line 350) is the one used. -/
theorem run_guards_unreachable (o : Oracle) (r maxD : Nat) (seed : String) (s : TravState)
    (h : runTraversal o r maxD seed = .ok s) :
    draw_graph_refuses s = false ∧ s.node_depths.isEmpty = false ∧ 0 < s.nodes.length := by
  obtain ⟨s₀, h₀, rfl⟩ := runTraversal_ok h
  obtain ⟨name, rfl⟩ := initGraph_ok h₀
  obtain ⟨hnodes, hlen, -⟩ := get_related_jobs_grows o maxD (maxD + 1) seed 1 "" _
  have key : ∀ t : TravState, name ∈ t.nodes → 1 ≤ t.node_depths.length →
      draw_graph_refuses t = false ∧ t.node_depths.isEmpty = false ∧ 0 < t.nodes.length := by
    intro t hmem hlen'
    have hpos : 0 < t.nodes.length := List.length_pos_of_mem hmem
    refine ⟨?_, ?_, hpos⟩
    · simp only [draw_graph_refuses, beq_eq_false_iff_ne]
      omega
    · cases hnd : t.node_depths with
      | nil => rw [hnd] at hlen'; simp at hlen'
      | cons a lrest => rfl
  exact key _ (hnodes name (List.mem_singleton.mpr rfl)) hlen

theorem run_guards_unreachable_witness :
    draw_graph_refuses c1Final = false ∧ c1Final.node_depths.isEmpty = false
    ∧ 0 < c1Final.nodes.length :=
  run_guards_unreachable oC1 3 2 "seed_id" c1Final rfl
